import Mathlib

/-!
Verification of `image_email_scraper.py`.

This file shallowly embeds the Python program: the email regular
expression and `re.findall` are modelled as executable functions on
`List Char`; `urlparse`/`pathlib.Path.suffix` behaviour used by
`is_valid_image` is modelled from CPython's documented algorithm;
the effectful functions (`get_image_data`, `extract_emails_from_image`,
`save_emails_to_file`, `main`) are modelled as pure state transformers
over an explicit `World` (HTTP / filesystem / OCR oracles) and `FS`
(file-system) state, emitting an event trace.
-/

/-- The source's regex, `EMAIL_REGEX = r'[\w.+-]+@[\w-]+\.[\w.-]+'`
(kept as documentation; the matcher below implements it). -/
def EMAIL_REGEX : String := "[\\w.+-]+@[\\w-]+\\.[\\w.-]+"

/-- Python `\w` (ASCII range): letters, digits, underscore. -/
def isWordChar (c : Char) : Bool := c.isAlphanum || c = '_'

/-- Character class `[\w.+-]` (the part before `@`). -/
def isLocalChar (c : Char) : Bool := isWordChar c || c = '.' || c = '+' || c = '-'

/-- Character class `[\w-]` (the part between `@` and the literal dot). -/
def isHostChar (c : Char) : Bool := isWordChar c || c = '-'

/-- Character class `[\w.-]` (the part after the literal dot). -/
def isTailChar (c : Char) : Bool := isWordChar c || c = '.' || c = '-'

/-- Length of the (unique) match of `EMAIL_REGEX` anchored at the start of
`cs`, if any.  Since `@` is not in `[\w.+-]` and `.` is not in `[\w-]`,
Python's greedy backtracking matcher degenerates to: maximal run of
`[\w.+-]`, literal `@`, maximal run of `[\w-]`, literal `.`, maximal run
of `[\w.-]`, each run nonempty. -/
def matchEmailLen (cs : List Char) : Option Nat :=
  let la := (cs.takeWhile isLocalChar).length
  if la = 0 then none else
  match cs.drop la with
  | '@' :: r2 =>
    let lb := (r2.takeWhile isHostChar).length
    if lb = 0 then none else
    match r2.drop lb with
    | '.' :: r4 =>
      let lc := (r4.takeWhile isTailChar).length
      if lc = 0 then none else some (la + 1 + lb + 1 + lc)
    | _ => none
  | _ => none

/-- `re.findall(EMAIL_REGEX, text)`: scan left to right; at each position
try to match; on success emit the match and resume after it, otherwise
advance one character.  `fuel` bounds the recursion; every step consumes
at least one character, so `fuel = cs.length` computes the full scan. -/
def findAllEmailsFuel : Nat → List Char → List String
  | 0, _ => []
  | _ + 1, [] => []
  | fuel + 1, c :: rest =>
    match matchEmailLen (c :: rest) with
    | some n => String.mk ((c :: rest).take n) :: findAllEmailsFuel fuel ((c :: rest).drop n)
    | none => findAllEmailsFuel fuel rest

/-- `re.findall(EMAIL_REGEX, text)` on a character list. -/
def findAllEmails (cs : List Char) : List String := findAllEmailsFuel cs.length cs

/-- The pure extraction step of `extract_emails_from_image`:
`list(set(re.findall(EMAIL_REGEX, text)))`, i.e. all non-overlapping
matches, deduplicated (order immaterial; we use `List.dedup`). -/
def extractEmailsFromText (text : String) : List String := (findAllEmails text.data).dedup

/-! ## `urlparse` / `Path.suffix` model (CPython semantics used by the source) -/

/-- CPython `urllib.parse`: characters allowed in a scheme after the
leading letter (`scheme_chars`). -/
def isSchemeChar (c : Char) : Bool := c.isAlpha || c.isDigit || c = '+' || c = '-' || c = '.'

/-- Scan for the scheme's terminating `:`, requiring every character
before it to be a scheme character; the accumulated scheme is
lower-cased (as CPython does). -/
def schemeLoop : List Char → List Char → Option (List Char × List Char)
  | [], _ => none
  | c :: rest, acc =>
    if c = ':' then some ((acc.reverse).map Char.toLower, rest)
    else if isSchemeChar c then schemeLoop rest (c :: acc)
    else none

/-- CPython `urlsplit` scheme detection: a scheme exists when the string
has a `:` preceded only by an ASCII letter followed by scheme
characters.  Returns the (lower-cased) scheme and the rest after `:`. -/
def splitScheme (cs : List Char) : Option (List Char × List Char) :=
  match cs with
  | [] => none
  | c :: rest => if c.isAlpha then schemeLoop rest [c] else none

/-- Not a netloc delimiter (`/`, `?` or `#`). -/
def notSlashQH (c : Char) : Bool := c ≠ '/' && c ≠ '?' && c ≠ '#'

/-- Not a query/fragment delimiter (`?` or `#`). -/
def notQH (c : Char) : Bool := c ≠ '?' && c ≠ '#'

/-- CPython `urlsplit`: when the remainder starts with `//`, the netloc
extends to the first `/`, `?` or `#`; the returned url keeps that
delimiter. -/
def dropNetloc (cs : List Char) : List Char :=
  match cs with
  | a :: b :: rest => if a = '/' ∧ b = '/' then rest.dropWhile notSlashQH else a :: b :: rest
  | _ => cs

/-- Schemes for which `urlparse` splits `;parameters` off the path
(CPython `uses_params`, the empty scheme omitted since we only call this
with a nonempty scheme). -/
def usesParams : List String :=
  ["ftp", "hdl", "prospero", "http", "imap", "https", "shttp", "rtsp",
   "rtspu", "sip", "sips", "mms", "sftp", "tel"]

/-- CPython `_splitparams`: drop `;params` from the last path segment. -/
def splitParams (p : List Char) : List Char :=
  if p.contains '/' then
    match (p.reverse.findIdx? (· = '/')) with
    | none => p
    | some j =>
      let k := p.length - 1 - j
      match (p.drop k).findIdx? (· = ';') with
      | none => p
      | some i => p.take (k + i)
  else
    match p.findIdx? (· = ';') with
    | none => p
    | some i => p.take i

/-- The `.path` of `urlparse(source)` when a scheme was found: drop the
netloc, cut at the first `?` or `#` (query/fragment), and for the
schemes in `uses_params` split off `;params`. -/
def urlPathOfRest (scheme rest : List Char) : List Char :=
  let p := (dropNetloc rest).takeWhile notQH
  if usesParams.contains (String.mk scheme) && p.contains ';' then splitParams p else p

/-- `pathlib.PurePosixPath(s).name`: the last path component, with empty
and `.` components dropped during parsing. -/
def pathName (cs : List Char) : List Char :=
  ((cs.splitOn '/').filter (fun comp => decide (comp ≠ [] ∧ comp ≠ ['.']))).getLastD []

/-- `pathlib.PurePosixPath(s).suffix`: `name[i:]` for `i` the index of
the last dot, provided `0 < i < len(name) - 1`, else empty. -/
def pathSuffix (cs : List Char) : List Char :=
  let name := pathName cs
  match name.reverse.findIdx? (· = '.') with
  | none => []
  | some j =>
    let i := name.length - 1 - j
    if 0 < i ∧ i + 1 < name.length then name.drop i else []

/-- `VALID_IMAGE_EXTENSIONS = {".png", ".jpg", ".jpeg", ".bmp", ".tiff"}`. -/
def VALID_IMAGE_EXTENSIONS : List String := [".png", ".jpg", ".jpeg", ".bmp", ".tiff"]

/-- The lower-cased extension `is_valid_image` extracts: from the URL's
path component when the source parses with a scheme, otherwise from the
source treated as a filesystem path. -/
def extractedExtension (s : String) : String :=
  match splitScheme s.data with
  | some (sch, rest) => String.mk ((pathSuffix (urlPathOfRest sch rest)).map Char.toLower)
  | none => String.mk ((pathSuffix s.data).map Char.toLower)

/-- `is_valid_image(source)`: membership of the extracted lower-cased
extension in the allow-list. -/
def is_valid_image (s : String) : Bool :=
  decide (extractedExtension s ∈ VALID_IMAGE_EXTENSIONS)

/-! ## Effectful pipeline model -/

/-- Image bytes (`BytesIO` contents). -/
abbrev Bytes := List Nat

/-- Root cause of a failure inside `get_image_data` /
`extract_emails_from_image`, before the broad `except` re-wraps it. -/
inductive Cause where
  /-- The `ValueError("Invalid file type. ...")` raised on validation failure. -/
  | invalidInput (msg : String)
  /-- `requests` connection-level failure. -/
  | networkError
  /-- `response.raise_for_status()` on a 4xx/5xx status. -/
  | httpStatus (status : Nat)
  /-- `Path(source).read_bytes()` failure (missing file, permissions). -/
  | fileError (path : String)
  /-- Image decoding or OCR failure. -/
  | ocrError
  deriving DecidableEq

/-- Whether a cause is a fetch failure (as opposed to input validation). -/
def Cause.isFetchFailure : Cause → Bool
  | .networkError => true
  | .httpStatus _ => true
  | .fileError _ => true
  | _ => false

/-- Loose rendering of the underlying exception text (external library
messages are not specified; only their structure matters here). -/
def Cause.msg : Cause → String
  | .invalidInput m => m
  | .networkError => "connection error"
  | .httpStatus st => "HTTP error " ++ toString st
  | .fileError p => "cannot read file " ++ p
  | .ocrError => "cannot decode or OCR image"

/-- The `RuntimeError` raised by `get_image_data`'s `except` block:
`"Failed to retrieve image from {source}: {error}"`, modelled
structurally as the source string plus the original cause. -/
structure WrappedError where
  source : String
  cause : Cause
  deriving DecidableEq

/-- Message text of the wrapped `RuntimeError`. -/
def WrappedError.msg (e : WrappedError) : String :=
  "Failed to retrieve image from " ++ e.source ++ ": " ++ e.cause.msg

/-- Observable events of a run (log lines, I/O actions). -/
inductive Ev where
  /-- An HTTP GET was issued. -/
  | httpRequest (url : String)
  /-- A local file read was attempted. -/
  | fileRead (path : String)
  /-- `mkdir(parents=True, exist_ok=True)` on a directory. -/
  | mkdirp (dir : String)
  /-- A file was written with the given content. -/
  | fileWrite (path : String) (content : List Char)
  /-- A line printed to the console for the user (never emitted by this
  program; present so its absence is expressible). -/
  | consolePrint (line : String)
  /-- `logging.info`. -/
  | logInfo (msg : String)
  /-- `logging.error`. -/
  | logError (msg : String)
  deriving DecidableEq

/-- Fetch events: network request or local file read. -/
def Ev.isFetch : Ev → Bool
  | .httpRequest _ => true
  | .fileRead _ => true
  | _ => false

/-- File-write events. -/
def Ev.isWrite : Ev → Bool
  | .fileWrite _ _ => true
  | _ => false

/-- Console-print events. -/
def Ev.isPrint : Ev → Bool
  | .consolePrint _ => true
  | _ => false

/-- External oracles: HTTP responses (`none` = connection failure,
otherwise status and body), local file contents (`none` = unreadable),
and the decode+OCR capability (`none` = decode/OCR failure, otherwise
the recognized text). -/
structure World where
  http : String → Option (Nat × Bytes)
  fsRead : String → Option Bytes
  ocr : Bytes → Option String

/-- The source's case-sensitive literal prefix test
`source.startswith("http://") or source.startswith("https://")`
(executable prefix test on the character lists). -/
def startswithHttp (s : String) : Bool :=
  List.isPrefixOf "http://".data s.data || List.isPrefixOf "https://".data s.data

/-- `get_image_data(source)`: branch on a case-sensitive literal
`http://` / `https://` prefix test; in each branch log, validate via
`is_valid_image` (raising `ValueError` when invalid, before any fetch),
then fetch; any exception is re-wrapped into a `RuntimeError` carrying
the source string.  Returns the result and the event trace. -/
def get_image_data (w : World) (source : String) : Except WrappedError Bytes × List Ev :=
  if startswithHttp source then
    if !is_valid_image source then
      (.error ⟨source, .invalidInput "Invalid file type. Please provide a valid image file URL."⟩,
       [.logInfo ("Downloading image from URL: " ++ source)])
    else
      match w.http source with
      | none =>
        (.error ⟨source, .networkError⟩,
         [.logInfo ("Downloading image from URL: " ++ source), .httpRequest source])
      | some (status, body) =>
        if 400 ≤ status ∧ status < 600 then
          (.error ⟨source, .httpStatus status⟩,
           [.logInfo ("Downloading image from URL: " ++ source), .httpRequest source])
        else
          (.ok body,
           [.logInfo ("Downloading image from URL: " ++ source), .httpRequest source])
  else
    if !is_valid_image source then
      (.error ⟨source, .invalidInput "Invalid file type. Please provide a valid image file."⟩,
       [.logInfo ("Loading image from file: " ++ source)])
    else
      match w.fsRead source with
      | none =>
        (.error ⟨source, .fileError source⟩,
         [.logInfo ("Loading image from file: " ++ source), .fileRead source])
      | some b =>
        (.ok b, [.logInfo ("Loading image from file: " ++ source), .fileRead source])

/-- `extract_emails_from_image(image_data)`: decode + OCR via the
oracle (failures re-wrapped as a `RuntimeError`), then apply
`EMAIL_REGEX` and deduplicate; logs the count on success. -/
def extract_emails_from_image (w : World) (imageData : Bytes) :
    Except Cause (List String) × List Ev :=
  match w.ocr imageData with
  | none => (.error .ocrError, [])
  | some text =>
    let emails := extractEmailsFromText text
    (.ok emails,
     [.logInfo ("Extracted " ++ toString emails.length ++ " email(s) from the image.")])

/-- Path components as `pathlib` parses them (empty and `.` dropped). -/
def pathComponents (cs : List Char) : List (List Char) :=
  (cs.splitOn '/').filter (fun comp => decide (comp ≠ [] ∧ comp ≠ ['.']))

/-- Whether the path is absolute. -/
def isAbsPath (cs : List Char) : Bool := cs.head? = some '/'

/-- Rebuild a path string from components (pathlib's normal form). -/
def renderPath (abs : Bool) (comps : List (List Char)) : String :=
  if comps = [] then (if abs then "/" else ".")
  else String.mk ((if abs then ['/'] else []) ++ List.intercalate ['/'] comps)

/-- `Path(p).parent` as a normalized string. -/
def parentOf (p : String) : String :=
  renderPath (isAbsPath p.data) (pathComponents p.data).dropLast

/-- The directories `Path(p).parent.mkdir(parents=True)` brings into
existence: every nonempty prefix of the parent's component chain. -/
def ancestorDirs (p : String) : List String :=
  let abs := isAbsPath p.data
  let comps := (pathComponents p.data).dropLast
  (List.range comps.length).map (fun k => renderPath abs (comps.take (k + 1)))

/-- Filesystem state: existing directories and file contents. -/
structure FS where
  dirs : List String
  files : String → Option (List Char)

/-- The newline-joined file content `"\n".join(emails)`. -/
def emailFileContent (emails : List String) : List Char :=
  List.intercalate ['\n'] (emails.map String.data)

/-- `save_emails_to_file(emails, output_path)`: create missing parent
directories (`mkdir(parents=True, exist_ok=True)`), touch the file if
absent (logged), then open for writing (truncating) and write the
newline-joined emails as text. -/
def save_emails_to_file (fs : FS) (emails : List String) (outputPath : String) : FS × List Ev :=
  let content := emailFileContent emails
  ({ dirs := ancestorDirs outputPath ++ fs.dirs,
     files := fun p => if p = outputPath then some content else fs.files p },
   [.mkdirp (parentOf outputPath)]
   ++ (if fs.files outputPath = none
       then [.logInfo ("File " ++ outputPath ++ " not found. Creating new file.")] else [])
   ++ [.fileWrite outputPath content])

/-- `main()` (modelled as `mainProgram`, since Lean reserves the name `main`) after reading and stripping the two inputs: if either is
empty, log `Missing required input.` and return; otherwise fetch,
extract, and either save (non-empty result; `main` itself also makes
the parent directory first) or log `No emails found.`; `RuntimeError`s
are caught and logged. -/
def mainProgram (w : World) (fs : FS) (source outputPath : String) : FS × List Ev :=
  if source.isEmpty || outputPath.isEmpty then
    (fs, [.logError "Missing required input."])
  else
    match get_image_data w source with
    | (.error e, evs) =>
      (fs, evs ++ [.logError ("Failed to process image: " ++ e.msg)])
    | (.ok bytes, evs) =>
      match extract_emails_from_image w bytes with
      | (.error c, evs2) =>
        (fs, evs ++ evs2
             ++ [.logError ("Failed to process image: Failed to process image: " ++ c.msg)])
      | (.ok emails, evs2) =>
        if emails.isEmpty then
          (fs, evs ++ evs2 ++ [.logInfo "No emails found."])
        else
          let fs1 : FS := { fs with dirs := ancestorDirs outputPath ++ fs.dirs }
          let r := save_emails_to_file fs1 emails outputPath
          (r.1, evs ++ evs2 ++ [.mkdirp (parentOf outputPath)] ++ r.2
                ++ [.logInfo ("Extraction complete. Emails saved to " ++ outputPath)])

/-! ## Helper lemmas -/

/-- A concrete world where every external operation fails. -/
def trivialWorld : World :=
  { http := fun _ => none, fsRead := fun _ => none, ocr := fun _ => none }

/-- A concrete empty filesystem. -/
def emptyFS : FS := { dirs := [], files := fun _ => none }

theorem takeWhile_append_of_all {α} {p : α → Bool} {l : List α}
    (h : ∀ c ∈ l, p c = true) (e : List α) :
    List.takeWhile p (l ++ e) = l ++ List.takeWhile p e := by
  induction l with
  | nil => simp
  | cons a t ih =>
    have ha := h a (by simp)
    have ih' := ih (fun c hc => h c (by simp [hc]))
    simp [List.takeWhile_cons, ha, ih']

theorem dropWhile_append_eq_nil {α} {p : α → Bool} {l : List α}
    (h : List.dropWhile p l = []) (e : List α) :
    List.dropWhile p (l ++ e) = List.dropWhile p e := by
  induction l with
  | nil => simp
  | cons a t ih =>
    by_cases hp : p a
    · simp only [List.dropWhile_cons, hp, if_true] at h
      simpa [List.dropWhile_cons, hp] using ih h
    · simp [List.dropWhile_cons, hp] at h

theorem dropWhile_append_ne_nil {α} {p : α → Bool} {l : List α}
    (h : List.dropWhile p l ≠ []) (e : List α) :
    List.dropWhile p (l ++ e) = List.dropWhile p l ++ e := by
  induction l with
  | nil => simp at h
  | cons a t ih =>
    by_cases hp : p a
    · simp only [List.dropWhile_cons, hp, if_true] at h
      simpa [List.dropWhile_cons, hp] using ih h
    · simp [List.dropWhile_cons, hp]

theorem schemeLoop_append (es : List Char) :
    ∀ (cs acc sch rest : List Char), schemeLoop cs acc = some (sch, rest) →
      schemeLoop (cs ++ es) acc = some (sch, rest ++ es)
  | [], acc, sch, rest, h => by simp [schemeLoop] at h
  | c :: cs', acc, sch, rest, h => by
    by_cases hc : c = ':'
    · simp only [schemeLoop, hc, if_true, Option.some.injEq, Prod.mk.injEq] at h
      simp [schemeLoop, hc, h.1, h.2]
    · by_cases hsc : isSchemeChar c
      · simp only [schemeLoop, hc, if_false, hsc, if_true] at h
        simpa [schemeLoop, hc, hsc] using schemeLoop_append es cs' (c :: acc) sch rest h
      · simp [schemeLoop, hc, hsc] at h

theorem schemeLoop_rest_mem :
    ∀ (cs acc sch rest : List Char), schemeLoop cs acc = some (sch, rest) →
      ∀ x ∈ rest, x ∈ cs
  | [], acc, sch, rest, h => by simp [schemeLoop] at h
  | c :: cs', acc, sch, rest, h => by
    by_cases hc : c = ':'
    · simp only [schemeLoop, hc, if_true, Option.some.injEq, Prod.mk.injEq] at h
      intro x hx
      exact List.mem_cons_of_mem _ (h.2 ▸ hx)
    · by_cases hsc : isSchemeChar c
      · simp only [schemeLoop, hc, if_false, hsc, if_true] at h
        intro x hx
        exact List.mem_cons_of_mem _ (schemeLoop_rest_mem cs' (c :: acc) sch rest h x hx)
      · simp [schemeLoop, hc, hsc] at h

theorem splitScheme_append {cs es sch rest : List Char}
    (h : splitScheme cs = some (sch, rest)) :
    splitScheme (cs ++ es) = some (sch, rest ++ es) := by
  cases cs with
  | nil => simp [splitScheme] at h
  | cons c cs' =>
    by_cases hc : c.isAlpha
    · simp only [splitScheme, hc, if_true] at h
      simpa [splitScheme, hc] using schemeLoop_append es cs' [c] sch rest h
    · simp [splitScheme, hc] at h

theorem splitScheme_rest_mem {cs sch rest : List Char}
    (h : splitScheme cs = some (sch, rest)) : ∀ x ∈ rest, x ∈ cs := by
  cases cs with
  | nil => simp [splitScheme] at h
  | cons c cs' =>
    by_cases hc : c.isAlpha
    · simp only [splitScheme, hc, if_true] at h
      intro x hx
      exact List.mem_cons_of_mem _ (schemeLoop_rest_mem cs' [c] sch rest h x hx)
    · simp [splitScheme, hc] at h

theorem notQH_of_mem {rest : List Char} (hq : '?' ∉ rest) (hh : '#' ∉ rest) :
    ∀ x ∈ rest, notQH x = true := by
  intro x hx
  have hx1 : x ≠ '?' := fun e => hq (e ▸ hx)
  have hx2 : x ≠ '#' := fun e => hh (e ▸ hx)
  simp [notQH, hx1, hx2]

theorem dropNetloc_no_slashes {c : Char} (hc : c ≠ '/') (X : List Char) :
    dropNetloc (c :: X) = c :: X := by
  cases X with
  | nil => rfl
  | cons b t => simp [dropNetloc, hc]

theorem pathPart_append {rest : List Char} {c : Char} (hc : c = '?' ∨ c = '#')
    (hrest : ∀ x ∈ rest, notQH x = true) (X : List Char) :
    (dropNetloc (rest ++ c :: X)).takeWhile notQH = (dropNetloc rest).takeWhile notQH := by
  have hcq : notQH c = false := by rcases hc with h | h <;> simp [notQH, h]
  have hcs : c ≠ '/' := by rcases hc with h | h <;> simp [h]
  match rest, hrest with
  | [], _ =>
    rw [List.nil_append, dropNetloc_no_slashes hcs]
    simp [dropNetloc, List.takeWhile_cons, hcq]
  | [a], hrest =>
    have ha : notQH a = true := hrest a (by simp)
    have ha' : ¬(a = '/' ∧ c = '/') := fun h => hcs h.2
    simp only [List.cons_append, List.nil_append, dropNetloc]
    rw [if_neg ha']
    simp [List.takeWhile_cons, ha, hcq]
  | a :: b :: t, hrest =>
    have ha : notQH a = true := hrest a (by simp)
    have hb : notQH b = true := hrest b (by simp)
    by_cases hab : a = '/' ∧ b = '/'
    · obtain ⟨ha1, hb1⟩ := hab
      subst ha1
      subst hb1
      have hred : ∀ l : List Char,
          dropNetloc ('/' :: '/' :: l) = List.dropWhile notSlashQH l := by
        intro l
        simp [dropNetloc]
      rw [List.cons_append, List.cons_append, hred, hred]
      by_cases hdw : List.dropWhile notSlashQH t = []
      · rw [dropWhile_append_eq_nil hdw, hdw]
        have hcns : notSlashQH c = false := by rcases hc with h | h <;> simp [notSlashQH, h]
        rw [show List.dropWhile notSlashQH (c :: X) = c :: X by simp [List.dropWhile_cons, hcns]]
        simp [List.takeWhile_cons, hcq]
      · have hall : ∀ x ∈ List.dropWhile notSlashQH t, notQH x = true := by
          intro x hx
          exact hrest x (by
            have hxt : x ∈ t := (List.dropWhile_sublist (p := notSlashQH) (l := t)).subset hx
            simp [hxt])
        rw [dropWhile_append_ne_nil hdw, takeWhile_append_of_all hall,
          List.takeWhile_eq_self_iff.mpr hall]
        simp [List.takeWhile_cons, hcq]
    · simp only [List.cons_append, dropNetloc]
      rw [if_neg hab, if_neg hab]
      have hallt : ∀ x ∈ t, notQH x = true := fun x hx => hrest x (by simp [hx])
      have htk : List.takeWhile notQH (t ++ c :: X) = t ++ List.takeWhile notQH (c :: X) :=
        takeWhile_append_of_all hallt _
      simp [List.takeWhile_cons, ha, hb, htk, List.takeWhile_eq_self_iff.mpr hallt, hcq]

theorem urlPathOfRest_append {sch rest : List Char} {c : Char} (hc : c = '?' ∨ c = '#')
    (hrest : ∀ x ∈ rest, notQH x = true) (X : List Char) :
    urlPathOfRest sch (rest ++ c :: X) = urlPathOfRest sch rest := by
  unfold urlPathOfRest
  rw [pathPart_append hc hrest X]

/-- Appending `?query` or `#fragment` to a scheme-carrying source that
itself contains no `?` or `#` does not change the extracted extension. -/
theorem extractedExtension_append_qf {s t : String} {c : Char} (hc : c = '?' ∨ c = '#')
    (hsch : (splitScheme s.data).isSome = true)
    (hq : '?' ∉ s.data) (hh : '#' ∉ s.data) :
    extractedExtension (String.mk (s.data ++ c :: t.data)) = extractedExtension s := by
  obtain ⟨⟨sch, rest⟩, hsplit⟩ := Option.isSome_iff_exists.mp hsch
  have hsplit' : splitScheme (s.data ++ c :: t.data) = some (sch, rest ++ c :: t.data) :=
    splitScheme_append hsplit
  have hmem := splitScheme_rest_mem hsplit
  have hqr : '?' ∉ rest := fun hx => hq (hmem _ hx)
  have hhr : '#' ∉ rest := fun hx => hh (hmem _ hx)
  simp only [extractedExtension, hsplit, hsplit']
  rw [urlPathOfRest_append hc (notQH_of_mem hqr hhr) t.data]

/-- A string fully matching `EMAIL_REGEX` (the shape of every string
`findAllEmails` produces). -/
def isEmailString (s : String) : Bool := decide (matchEmailLen s.data = some s.data.length)

theorem matchEmailLen_some_spec {cs : List Char} {n : Nat} (h : matchEmailLen cs = some n) :
    ∃ r2 r4 : List Char,
      cs = cs.takeWhile isLocalChar ++ '@' :: r2 ∧
      r2 = r2.takeWhile isHostChar ++ '.' :: r4 ∧
      cs.takeWhile isLocalChar ≠ [] ∧
      r2.takeWhile isHostChar ≠ [] ∧
      r4.takeWhile isTailChar ≠ [] ∧
      n = (cs.takeWhile isLocalChar).length + 1 + (r2.takeWhile isHostChar).length + 1 +
        (r4.takeWhile isTailChar).length := by
  simp only [matchEmailLen] at h
  split at h
  · exact absurd h (by simp)
  · rename_i hla
    split at h
    · rename_i r2 heq2
      split at h
      · exact absurd h (by simp)
      · rename_i hlb
        split at h
        · rename_i r4 heq4
          split at h
          · exact absurd h (by simp)
          · rename_i hlc
            refine ⟨r2, r4, ?_, ?_, ?_, ?_, ?_, ?_⟩
            · calc cs = cs.take ((cs.takeWhile isLocalChar).length)
                  ++ cs.drop ((cs.takeWhile isLocalChar).length) :=
                    (List.take_append_drop _ _).symm
                _ = cs.takeWhile isLocalChar ++ '@' :: r2 := by
                    rw [← List.prefix_iff_eq_take.mp (List.takeWhile_prefix _), heq2]
            · calc r2 = r2.take ((r2.takeWhile isHostChar).length)
                  ++ r2.drop ((r2.takeWhile isHostChar).length) :=
                    (List.take_append_drop _ _).symm
                _ = r2.takeWhile isHostChar ++ '.' :: r4 := by
                    rw [← List.prefix_iff_eq_take.mp (List.takeWhile_prefix _), heq4]
            · exact fun e => hla (by simp [e])
            · exact fun e => hlb (by simp [e])
            · exact fun e => hlc (by simp [e])
            · exact (Option.some.inj h).symm
        · exact absurd h (by simp)
    · exact absurd h (by simp)

theorem isEmailString_no_newline {e : String} (he : isEmailString e = true) : '\n' ∉ e.data := by
  have h : matchEmailLen e.data = some e.data.length := by
    simpa [isEmailString] using he
  obtain ⟨r2, r4, hcs, hr2, _, _, _, hn⟩ := matchEmailLen_some_spec h
  have hlen1 : e.data.length = (e.data.takeWhile isLocalChar).length + 1 + r2.length := by
    have := congrArg List.length hcs
    simp only [List.length_append, List.length_cons] at this
    omega
  have hlen2 : r2.length = (r2.takeWhile isHostChar).length + 1 + r4.length := by
    have := congrArg List.length hr2
    simp only [List.length_append, List.length_cons] at this
    omega
  have htail : r4.takeWhile isTailChar = r4 :=
    (List.takeWhile_prefix _).eq_of_length (by omega)
  have htail' : ∀ x ∈ r4, isTailChar x = true := List.takeWhile_eq_self_iff.mp htail
  intro hmem
  rw [hcs] at hmem
  rcases List.mem_append.mp hmem with hmem1 | hmem1
  · have := List.mem_takeWhile_imp hmem1
    simp [isLocalChar, isWordChar] at this
  · rcases List.mem_cons.mp hmem1 with hat | hmem2
    · simp at hat
    · rw [hr2] at hmem2
      rcases List.mem_append.mp hmem2 with hmem3 | hmem3
      · have := List.mem_takeWhile_imp hmem3
        simp [isHostChar, isWordChar] at this
      · rcases List.mem_cons.mp hmem3 with hdot | hmem4
        · simp at hdot
        · have := htail' _ hmem4
          simp [isTailChar, isWordChar] at this

/-- Reading a file back and splitting it on newlines. -/
def contentLines (content : List Char) : List String :=
  (content.splitOn '\n').map String.mk

theorem contentLines_emailFileContent {emails : List String} (hne : emails ≠ [])
    (hnl : ∀ e ∈ emails, '\n' ∉ e.data) :
    contentLines (emailFileContent emails) = emails := by
  unfold contentLines emailFileContent
  rw [List.splitOn_intercalate (emails.map String.data) '\n'
    (by
      intro l hl
      obtain ⟨e, he, rfl⟩ := List.mem_map.mp hl
      exact hnl e he)
    (by simpa using hne)]
  rw [List.map_map]
  have hid : String.mk ∘ String.data = id := funext fun s => rfl
  simp [hid]

theorem get_image_data_events (w : World) (s : String) :
    ∀ ev ∈ (get_image_data w s).2, ev.isWrite = false ∧ ev.isPrint = false := by
  by_cases h1 : startswithHttp s = true
  · by_cases h2 : is_valid_image s
    · cases hh : w.http s with
      | none => simp [get_image_data, h1, h2, hh, Ev.isWrite, Ev.isPrint]
      | some pr =>
        obtain ⟨st, body⟩ := pr
        by_cases h3 : 400 ≤ st ∧ st < 600 <;>
          simp [get_image_data, h1, h2, hh, h3, Ev.isWrite, Ev.isPrint]
    · simp [get_image_data, h1, h2, Ev.isWrite, Ev.isPrint]
  · by_cases h2 : is_valid_image s
    · cases hf : w.fsRead s with
      | none => simp [get_image_data, h1, h2, hf, Ev.isWrite, Ev.isPrint]
      | some b => simp [get_image_data, h1, h2, hf, Ev.isWrite, Ev.isPrint]
    · simp [get_image_data, h1, h2, Ev.isWrite, Ev.isPrint]

theorem extract_emails_events (w : World) (b : Bytes) :
    ∀ ev ∈ (extract_emails_from_image w b).2, ev.isWrite = false ∧ ev.isPrint = false := by
  cases ho : w.ocr b with
  | none => simp [extract_emails_from_image, ho]
  | some text => simp [extract_emails_from_image, ho, Ev.isWrite, Ev.isPrint]

theorem string_eq_of_data {x : String} {l : List Char} (h : x.data = l) : x = String.mk l := by
  cases x
  exact congrArg String.mk h

/-! ## Claims -/

/-- C1: For every OCR text equal to
`contact: a.b+test@example.co.uk and x@y.io`, the extraction step of
`extract_emails_from_image` (applying `EMAIL_REGEX`, collecting all
non-overlapping matches, deduplicating) returns a collection equal, as a
set, to exactly `{"a.b+test@example.co.uk", "x@y.io"}`, with duplicates
removed and order irrelevant. -/
theorem extract_emails_c1 :
    (extractEmailsFromText "contact: a.b+test@example.co.uk and x@y.io").toFinset
      = ({"a.b+test@example.co.uk", "x@y.io"} : Finset String)
    ∧ (extractEmailsFromText "contact: a.b+test@example.co.uk and x@y.io").Nodup := by
  constructor
  · decide
  · decide

/-- C2: every source whose extracted extension (URL path component when a
scheme parses, else the string as a filesystem path, lower-cased) is in
the allow-list is accepted by `is_valid_image`, including `photo.PNG`
and `http://x/y/z.jpg?a=1`; appending a query string or fragment to a
scheme-carrying URL does not affect the extracted extension.  (The
allow-list of this variant does not include `.webp`, which the claim
leaves optional.) -/
theorem is_valid_image_c2 :
    (∀ s : String, extractedExtension s ∈ VALID_IMAGE_EXTENSIONS → is_valid_image s = true)
    ∧ is_valid_image "photo.PNG" = true
    ∧ is_valid_image "http://x/y/z.jpg?a=1" = true
    ∧ ∀ s q : String, (splitScheme s.data).isSome = true → '?' ∉ s.data → '#' ∉ s.data →
        extractedExtension (s ++ "?" ++ q) = extractedExtension s
        ∧ extractedExtension (s ++ "#" ++ q) = extractedExtension s := by
  refine ⟨fun s h => by simp [is_valid_image, h], by decide, by decide, fun s q hsch hq hh => ?_⟩
  constructor
  · rw [string_eq_of_data (x := s ++ "?" ++ q) (l := s.data ++ '?' :: q.data) (by simp)]
    exact extractedExtension_append_qf (Or.inl rfl) hsch hq hh
  · rw [string_eq_of_data (x := s ++ "#" ++ q) (l := s.data ++ '#' :: q.data) (by simp)]
    exact extractedExtension_append_qf (Or.inr rfl) hsch hq hh

theorem is_valid_image_c2_witness :
    is_valid_image "dir/photo.PNG" = true
    ∧ (extractedExtension ("http://x/a.png" ++ "?" ++ "b=1")
        = extractedExtension "http://x/a.png"
      ∧ extractedExtension ("http://x/a.png" ++ "#" ++ "b=1")
        = extractedExtension "http://x/a.png") :=
  ⟨is_valid_image_c2.1 "dir/photo.PNG" (by decide),
   is_valid_image_c2.2.2.2 "http://x/a.png" "b=1" (by decide) (by decide) (by decide)⟩

/-- C3: every source whose extracted extension is not in the allow-list
is rejected by `is_valid_image`, including sources with no extension and
sources where a query string follows a valid extension without being
separated from it (scheme-less `z.jpg?a=1`) or where the valid extension
sits only in a URL's query string (`http://x/y/z?name=a.jpg`). -/
theorem is_valid_image_c3 :
    (∀ s : String, extractedExtension s ∉ VALID_IMAGE_EXTENSIONS → is_valid_image s = false)
    ∧ is_valid_image "photo" = false
    ∧ is_valid_image "z.jpg?a=1" = false
    ∧ is_valid_image "http://x/y/z?name=a.jpg" = false := by
  refine ⟨fun s h => by simp [is_valid_image, h], by decide, by decide, by decide⟩

theorem is_valid_image_c3_witness : is_valid_image "notes.txt" = false :=
  is_valid_image_c3.1 "notes.txt" (by decide)

/-- C4: on every source rejected by `is_valid_image`, `get_image_data`
fails with an invalid-input condition (the `ValueError`, re-wrapped with
the source string) and performs no fetch: no HTTP request is issued and
no file read is attempted. -/
theorem get_image_data_c4 (w : World) (s : String) (h : is_valid_image s = false) :
    (∃ msg, (get_image_data w s).1 = .error ⟨s, .invalidInput msg⟩)
    ∧ ∀ ev ∈ (get_image_data w s).2, ev.isFetch = false := by
  by_cases h1 : startswithHttp s = true
  · exact ⟨⟨"Invalid file type. Please provide a valid image file URL.",
      by simp [get_image_data, h1, h]⟩, by simp [get_image_data, h1, h, Ev.isFetch]⟩
  · exact ⟨⟨"Invalid file type. Please provide a valid image file.",
      by simp [get_image_data, h1, h]⟩, by simp [get_image_data, h1, h, Ev.isFetch]⟩

theorem get_image_data_c4_witness :
    (∃ msg, (get_image_data trivialWorld "photo").1
        = .error ⟨"photo", .invalidInput msg⟩)
    ∧ ∀ ev ∈ (get_image_data trivialWorld "photo").2, ev.isFetch = false :=
  get_image_data_c4 trivialWorld "photo" (by decide)

/-- A concrete world in which every HTTP request yields status 404 and no
local file is readable. -/
def w404 : World :=
  { http := fun _ => some (404, []), fsRead := fun _ => none, ocr := fun _ => none }

/-- C5: `get_image_data` fails with a fetch failure — a wrapped failure
carrying the original cause and the source string — whenever the source
is a valid-extension local path naming an unreadable file, or a
valid-extension URL whose HTTP response has a non-success (4xx/5xx)
status such as 404. -/
theorem get_image_data_c5 (w : World) (s : String) :
    (is_valid_image s = true →
      startswithHttp s = false →
      w.fsRead s = none →
      (get_image_data w s).1 = .error ⟨s, .fileError s⟩
      ∧ (Cause.fileError s).isFetchFailure = true)
    ∧ (∀ st body, is_valid_image s = true →
      startswithHttp s = true →
      w.http s = some (st, body) → 400 ≤ st → st < 600 →
      (get_image_data w s).1 = .error ⟨s, .httpStatus st⟩
      ∧ (Cause.httpStatus st).isFetchFailure = true) := by
  constructor
  · intro hv hp hf
    exact ⟨by simp [get_image_data, hp, hv, hf], rfl⟩
  · intro st body hv hp hh h4 h6
    have hcond : 400 ≤ st ∧ st < 600 := ⟨h4, h6⟩
    exact ⟨by simp [get_image_data, hp, hv, hh, hcond], rfl⟩

theorem get_image_data_c5_witness :
    ((get_image_data w404 "a.png").1 = .error ⟨"a.png", .fileError "a.png"⟩
     ∧ (Cause.fileError "a.png").isFetchFailure = true)
    ∧ ((get_image_data w404 "http://x/a.png").1
        = .error ⟨"http://x/a.png", .httpStatus 404⟩
       ∧ (Cause.httpStatus 404).isFetchFailure = true) :=
  ⟨(get_image_data_c5 w404 "a.png").1 (by decide) (by decide) rfl,
   (get_image_data_c5 w404 "http://x/a.png").2 404 [] (by decide) (by decide) rfl
     (by decide) (by decide)⟩

/-- C6: for every run in which the extractor returns an empty
collection, the sink performs no file write (the filesystem, and in
particular the output file, is unchanged) and the `No emails found.`
outcome is reported. -/
theorem main_c6 (w : World) (fs : FS) (src out : String) (b : Bytes) (evs evs2 : List Ev)
    (hs : src.isEmpty = false) (ho : out.isEmpty = false)
    (hg : get_image_data w src = (.ok b, evs))
    (he : extract_emails_from_image w b = (.ok [], evs2)) :
    (mainProgram w fs src out).1 = fs
    ∧ Ev.logInfo "No emails found." ∈ (mainProgram w fs src out).2
    ∧ ∀ ev ∈ (mainProgram w fs src out).2, ev.isWrite = false := by
  have hmain : mainProgram w fs src out
      = (fs, evs ++ evs2 ++ [Ev.logInfo "No emails found."]) := by
    simp [mainProgram, hs, ho, hg, he]
  refine ⟨by rw [hmain], by rw [hmain]; simp, ?_⟩
  rw [hmain]
  intro ev hev
  simp only [List.mem_append, List.mem_singleton] at hev
  rcases hev with (hev | hev) | hev
  · exact (get_image_data_events w src ev (by rw [hg]; exact hev)).1
  · exact (extract_emails_events w b ev (by rw [he]; exact hev)).1
  · simp [hev, Ev.isWrite]

/-- A concrete world whose OCR reads an empty text from the one readable
file. -/
def wBlank : World :=
  { http := fun _ => none, fsRead := fun _ => some [1], ocr := fun _ => some "" }

theorem main_c6_witness :
    (mainProgram wBlank emptyFS "a.png" "out.txt").1 = emptyFS
    ∧ Ev.logInfo "No emails found." ∈ (mainProgram wBlank emptyFS "a.png" "out.txt").2
    ∧ ∀ ev ∈ (mainProgram wBlank emptyFS "a.png" "out.txt").2, ev.isWrite = false :=
  main_c6 wBlank emptyFS "a.png" "out.txt" [1]
    [Ev.logInfo "Loading image from file: a.png", Ev.fileRead "a.png"]
    [Ev.logInfo "Extracted 0 email(s) from the image."]
    (by decide) (by decide) rfl rfl

/-- C7: round-trip — saving a non-empty collection of email strings with
`save_emails_to_file` to a fresh nested path (which creates the missing
parent directories) and reading that file back, split on newlines,
yields the same set of lines as the original collection. -/
theorem save_c7 (fs : FS) (emails : List String) (path : String)
    (hne : emails ≠ []) (hem : ∀ e ∈ emails, isEmailString e = true)
    (_hfresh : fs.files path = none) :
    (∃ content, (save_emails_to_file fs emails path).1.files path = some content
       ∧ (contentLines content).toFinset = emails.toFinset)
    ∧ ∀ d ∈ ancestorDirs path, d ∈ (save_emails_to_file fs emails path).1.dirs := by
  have hnl : ∀ e ∈ emails, '\n' ∉ e.data := fun e he => isEmailString_no_newline (hem e he)
  refine ⟨⟨emailFileContent emails, ?_, ?_⟩, ?_⟩
  · simp [save_emails_to_file]
  · rw [contentLines_emailFileContent hne hnl]
  · intro d hd
    simp [save_emails_to_file, hd]

theorem save_c7_witness :
    (∃ content, (save_emails_to_file emptyFS ["a@b.c"] "d/e/out.txt").1.files "d/e/out.txt"
        = some content
      ∧ (contentLines content).toFinset = (["a@b.c"] : List String).toFinset)
    ∧ ∀ d ∈ ancestorDirs "d/e/out.txt",
        d ∈ (save_emails_to_file emptyFS ["a@b.c"] "d/e/out.txt").1.dirs :=
  save_c7 emptyFS ["a@b.c"] "d/e/out.txt" (by decide) (by decide) rfl

/-- C8: last write wins — saving two different non-empty email
collections to the same path in sequence leaves the file containing
exactly the second collection's newline-joined content, and the file's
lines contain no entry present only in the first collection. -/
theorem save_c8 (fs : FS) (e1 e2 : List String) (path : String)
    (_h1 : e1 ≠ []) (h2 : e2 ≠ []) (_h12 : e1 ≠ e2)
    (hem : ∀ e ∈ e2, isEmailString e = true) :
    (save_emails_to_file (save_emails_to_file fs e1 path).1 e2 path).1.files path
      = some (emailFileContent e2)
    ∧ ∀ x ∈ e1, x ∉ e2 → x ∉ contentLines (emailFileContent e2) := by
  have hnl : ∀ e ∈ e2, '\n' ∉ e.data := fun e he => isEmailString_no_newline (hem e he)
  refine ⟨by simp [save_emails_to_file], ?_⟩
  intro x hx hnx
  rw [contentLines_emailFileContent h2 hnl]
  exact hnx

theorem save_c8_witness :
    (save_emails_to_file (save_emails_to_file emptyFS ["a@b.c"] "out.txt").1
        ["d@e.f"] "out.txt").1.files "out.txt"
      = some (emailFileContent ["d@e.f"])
    ∧ ∀ x ∈ (["a@b.c"] : List String), x ∉ (["d@e.f"] : List String) →
        x ∉ contentLines (emailFileContent ["d@e.f"]) :=
  save_c8 emptyFS ["a@b.c"] ["d@e.f"] "out.txt" (by decide) (by decide) (by decide) (by decide)

/-- C9, counterexample to the claim as stated: with a concrete valid
source and an empty output path, `main` only logs `Missing required
input.` — the pipeline does not execute (no fetch event) and nothing is
printed to the console, refuting "the pipeline still executes and each
extracted string is printed to the console, one per line". -/
theorem main_c9_counterexample :
    (mainProgram trivialWorld emptyFS "a.png" "").2 = [Ev.logError "Missing required input."]
    ∧ (∀ ev ∈ (mainProgram trivialWorld emptyFS "a.png" "").2,
        ev.isPrint = false ∧ ev.isFetch = false)
    ∧ (mainProgram trivialWorld emptyFS "a.png" "").1 = emptyFS := by
  refine ⟨rfl, ?_, rfl⟩
  intro ev hev
  have h : (mainProgram trivialWorld emptyFS "a.png" "").2
      = [Ev.logError "Missing required input."] := rfl
  rw [h] at hev
  rcases List.mem_singleton.mp hev with rfl
  exact ⟨rfl, rfl⟩

/-- C9 as amended: when the output path input is empty, `main` does not
run the pipeline at all — for every world, filesystem and source it
logs exactly `Missing required input.` and leaves the filesystem
unchanged (so in particular nothing is printed to the console). -/
theorem main_c9_amended (w : World) (fs : FS) (src : String) :
    (mainProgram w fs src "").2 = [Ev.logError "Missing required input."]
    ∧ (mainProgram w fs src "").1 = fs := by
  have hempty : ("" : String).isEmpty = true := rfl
  constructor <;> simp [mainProgram, hempty]

/-- C10: for every source that parses with a scheme but does not start
with the exact lowercase literals `http://` or `https://` (for example
`HTTPS://host/a.png` or `ftp://host/a.png`), `is_valid_image` validates
it via the URL's path component, while `get_image_data` takes the local
file branch and attempts to read the whole source string as a
filesystem path. -/
theorem scheme_prefix_c10 (w : World) (s : String)
    (_hsch : (splitScheme s.data).isSome = true)
    (hpre : startswithHttp s = false) :
    (∀ sch rest, splitScheme s.data = some (sch, rest) →
      is_valid_image s
        = decide (String.mk ((pathSuffix (urlPathOfRest sch rest)).map Char.toLower)
            ∈ VALID_IMAGE_EXTENSIONS))
    ∧ (is_valid_image s = true →
        (get_image_data w s).2
          = [Ev.logInfo ("Loading image from file: " ++ s), Ev.fileRead s]
        ∧ ∀ ev ∈ (get_image_data w s).2, ev.isFetch = true → ev = Ev.fileRead s) := by
  constructor
  · intro sch rest hsplit
    simp [is_valid_image, extractedExtension, hsplit]
  · intro hv
    have htr : (get_image_data w s).2
        = [Ev.logInfo ("Loading image from file: " ++ s), Ev.fileRead s] := by
      cases hf : w.fsRead s with
      | none => simp [get_image_data, hpre, hv, hf]
      | some b => simp [get_image_data, hpre, hv, hf]
    refine ⟨htr, ?_⟩
    intro ev hev hfetch
    rw [htr] at hev
    rcases List.mem_cons.mp hev with rfl | hev2
    · simp [Ev.isFetch] at hfetch
    · exact List.mem_singleton.mp hev2

theorem scheme_prefix_c10_witness :
    (is_valid_image "HTTPS://host/a.png"
      = decide (String.mk ((pathSuffix (urlPathOfRest "https".data "//host/a.png".data)).map
          Char.toLower) ∈ VALID_IMAGE_EXTENSIONS))
    ∧ ((get_image_data trivialWorld "HTTPS://host/a.png").2
        = [Ev.logInfo ("Loading image from file: " ++ "HTTPS://host/a.png"),
           Ev.fileRead "HTTPS://host/a.png"]
       ∧ ∀ ev ∈ (get_image_data trivialWorld "HTTPS://host/a.png").2,
           ev.isFetch = true → ev = Ev.fileRead "HTTPS://host/a.png") :=
  ⟨(scheme_prefix_c10 trivialWorld "HTTPS://host/a.png" (by decide) (by decide)).1
      "https".data "//host/a.png".data (by decide),
   (scheme_prefix_c10 trivialWorld "HTTPS://host/a.png" (by decide) (by decide)).2 (by decide)⟩
